import Mathlib

/-!
Verification of the archiver_webhook polling/fan-out engine against its
specification.  The definitions below are shallow embeddings of the Rust
source: `src/db.rs` (track store), `src/main.rs` (`poll_user`, the watcher
tick), `src/soundcloud.rs` (upload-fetch cap and the retry loop),
`src/audio.rs` (`get_format_priority`) and `src/discord.rs`
(description trimming, attachment filtering).
-/

namespace Archiver

/-! ## Track store (src/db.rs)

The store keeps a map from track id to an optional Discord message record.
We embed the map as an association list with Rust `HashMap::insert`
(replace-or-append) semantics. -/

/-- Discord message information recorded for an announced track
(src/db.rs `DiscordMessage`). -/
structure DiscordMessage where
  id : String
  channel_id : Option String
  user_id : Option String
deriving DecidableEq, Repr

/-- In-memory map of `src/db.rs TrackDatabase.tracks`. -/
abbrev TrackMap := List (String × Option DiscordMessage)

/-- `HashMap::contains_key`. -/
def mapContains (m : TrackMap) (k : String) : Bool :=
  m.any (fun p => p.1 == k)

/-- `HashMap::get` (cloned). -/
def mapLookup (m : TrackMap) (k : String) : Option (Option DiscordMessage) :=
  (m.find? (fun p => p.1 == k)).map Prod.snd

/-- `HashMap::insert`: overwrite the value when the key is present,
append otherwise. -/
def mapInsert (m : TrackMap) (k : String) (v : Option DiscordMessage) : TrackMap :=
  if mapContains m k then
    m.map (fun p => if p.1 == k then (k, v) else p)
  else
    m ++ [(k, v)]

/-- The key set of the map, as `HashMap::keys` produces it. -/
def mapKeys (m : TrackMap) : List String :=
  m.map Prod.fst

/-- src/db.rs `TrackDatabase` (the persisted path is irrelevant to the
in-memory behaviour modelled here). -/
structure TrackDatabase where
  tracks : TrackMap
deriving DecidableEq, Repr

/-- src/db.rs `has_track`. -/
def TrackDatabase.has_track (db : TrackDatabase) (id : String) : Bool :=
  mapContains db.tracks id

/-- Insert every id of `ids` with value `none`, left to right, as the
`for track_id in &new_tracks { self.tracks.insert(track_id.clone(), None); }`
loops of src/db.rs do. -/
def insertAllNone (m : TrackMap) (ids : List String) : TrackMap :=
  ids.foldl (fun acc id => mapInsert acc id none) m

/-- src/db.rs `add_tracks`: filter the batch against the current store,
then insert each new id with value `None`; returns the new ids. -/
def TrackDatabase.add_tracks (db : TrackDatabase) (ids : List String) :
    TrackDatabase × List String :=
  let newTracks := ids.filter (fun id => !(db.has_track id))
  (⟨insertAllNone db.tracks newTracks⟩, newTracks)

/-- src/db.rs `add_track_with_discord_info`. -/
def TrackDatabase.add_track_with_discord_info (db : TrackDatabase) (id : String)
    (discordId : String) (channelId userId : Option String) : TrackDatabase :=
  ⟨mapInsert db.tracks id (some ⟨discordId, channelId, userId⟩)⟩

/-- src/db.rs `get_discord_info`: `Some(Some(info))` is handed back, any
other shape (absent id, or id stored with `None`) yields `None`. -/
def TrackDatabase.get_discord_info (db : TrackDatabase) (id : String) :
    Option DiscordMessage :=
  match mapLookup db.tracks id with
  | some (some info) => some info
  | _ => none

/-- src/db.rs `get_all_tracks` (the spec's `list_ids`). -/
def TrackDatabase.get_all_tracks (db : TrackDatabase) : List String :=
  mapKeys db.tracks

/-- src/db.rs `initialize_with_tracks` (its `save()` has no effect on the
in-memory map). -/
def TrackDatabase.initialize_with_tracks (db : TrackDatabase) (ids : List String) :
    TrackDatabase :=
  ⟨insertAllNone db.tracks ids⟩

/-! ## The per-account routine (src/main.rs `poll_user`)

`poll_user` fetches the account's track ids, immediately records **all** new
ids in the store via `add_tracks_and_save` (src/main.rs lines 789-800), and
only then spawns the per-track tasks.  `discord::send_track_webhook`
(src/discord.rs lines 10-52) returns `Result<(), _>`: no message id is
handed back, and neither arm of the match on its result touches the store. -/

/-- src/discord.rs `send_track_webhook` outcome as seen by the caller: a
bare unit on 2xx, an error string on non-2xx.  The webhook oracle decides
the HTTP outcome for a given track id. -/
def send_track_webhook (ok : Bool) : Except String Unit :=
  if ok then Except.ok () else Except.error "Discord webhook error"

/-- Store effect and returned count of src/main.rs `poll_user`:
`add_tracks_and_save` first, then one task per new id whose webhook result
is only logged (both match arms leave the store as is). -/
def pollUser (db : TrackDatabase) (fetchedIds : List String)
    (webhookOk : String → Bool) : TrackDatabase × Nat :=
  let res := db.add_tracks fetchedIds
  let dbAfter := res.2.foldl
    (fun d id =>
      match send_track_webhook (webhookOk id) with
      | Except.ok _ => d
      | Except.error _ => d)
    res.1
  (dbAfter, res.2.length)

/-! ## Store operations within a run (claim C8) -/

/-- One operation on the track store during a run. -/
inductive DbOp where
  | addTracks (ids : List String)
  | link (id : String) (discordId : String) (channelId userId : Option String)
  | initializeWith (ids : List String)
  | save
  | shutdown
  | pollAccount (ids : List String) (webhookOk : String → Bool)

/-- Effect of one store operation on the in-memory database.  `save` and
`shutdown` only serialise and never touch the map. -/
def applyOp (db : TrackDatabase) : DbOp → TrackDatabase
  | DbOp.addTracks ids => (db.add_tracks ids).1
  | DbOp.link id d c u => db.add_track_with_discord_info id d c u
  | DbOp.initializeWith ids => db.initialize_with_tracks ids
  | DbOp.save => db
  | DbOp.shutdown => db
  | DbOp.pollAccount ids ok => (pollUser db ids ok).1

/-- Run a sequence of store operations. -/
def runOps (db : TrackDatabase) (ops : List DbOp) : TrackDatabase :=
  ops.foldl applyOp db

/-! ## Upload-fetch cap (src/soundcloud.rs `get_user_tracks`, lines 170-220)

The function first fetches the user record.  When that fails, or when the
record carries no `track_count`, it returns `Ok(Vec::new())` without issuing
a tracks request.  Otherwise it sets `effective_limit = limit` - the
configured limit verbatim, the fetched `track_count` is not consulted - and
issues one request with that limit. -/

/-- Outcome of the `get_user_details` sub-call as `get_user_tracks` sees it. -/
inductive UserDetails where
  | unavailable
  | available (track_count : Option Nat)
deriving DecidableEq, Repr

/-- The `limit` query parameter of the single tracks request issued by
`get_user_tracks`, or `none` when the function returns an empty list without
issuing any tracks request. -/
def getUserTracksRequestLimit (configuredLimit : Nat) (user : UserDetails) :
    Option Nat :=
  match user with
  | UserDetails.unavailable => none
  | UserDetails.available none => none
  | UserDetails.available (some _) =>
    let effective_limit := configuredLimit
    some effective_limit

/-! ## Watcher tick save logic (src/main.rs `run_watcher_mode`, lines 636-733)

`db_save_counter` and `db_needs_saving` live outside the main loop and
persist across ticks; `tracks_since_last_save` is declared inside the loop
body (line 642) and therefore restarts at 0 on every tick, summing only the
current tick's per-account counts. -/

/-- The two save thresholds of the configuration. -/
structure SchedConfig where
  db_save_tracks : Nat
  db_save_interval : Nat
deriving DecidableEq, Repr

/-- Scheduler state that persists across ticks. -/
structure SchedState where
  db_save_counter : Nat
  db_needs_saving : Bool
deriving DecidableEq, Repr

/-- One tick of the watcher loop, given the per-account new-track counts of
the tick's successfully joined tasks: sum them into the tick-local
`tracks_since_last_save`, mark dirty on any positive count, bump the save
counter, then save when (dirty and tick-local count at threshold) or the
counter reached the interval; a save resets counter, dirty flag and the
tick-local count.  Returns the next persistent state and whether a save
happened. -/
def schedTick (cfg : SchedConfig) (st : SchedState) (newCounts : List Nat) :
    SchedState × Bool :=
  let tracks_since_last_save := newCounts.sum
  let db_needs_saving := st.db_needs_saving || newCounts.any (fun c => 0 < c)
  let db_save_counter := st.db_save_counter + 1
  let save_by_tracks :=
    db_needs_saving && decide (cfg.db_save_tracks ≤ tracks_since_last_save)
  let save_by_interval := decide (cfg.db_save_interval ≤ db_save_counter)
  if save_by_tracks || save_by_interval then
    (⟨0, false⟩, true)
  else
    (⟨db_save_counter, db_needs_saving⟩, false)

/-- Run the watcher save logic over several ticks. -/
def runTicks (cfg : SchedConfig) (st : SchedState) (ticks : List (List Nat)) :
    SchedState :=
  ticks.foldl (fun s counts => (schedTick cfg s counts).1) st

/-- Scheduler state under claim C3's reading, where the pending-new-tracks
counter persists across ticks. -/
structure ClaimSchedState where
  pending : Nat
  counter : Nat
  dirty : Bool
deriving DecidableEq, Repr

/-- Modelled from the claim's words (not from the source): pending-new-tracks
accumulates per-account counts across ticks; save when (dirty and pending at
threshold) or the tick counter reached the interval; on save reset pending,
dirty and counter. -/
def schedTickAsClaimed (cfg : SchedConfig) (st : ClaimSchedState)
    (newCounts : List Nat) : ClaimSchedState × Bool :=
  let pending := st.pending + newCounts.sum
  let dirty := st.dirty || newCounts.any (fun c => 0 < c)
  let counter := st.counter + 1
  if (dirty && decide (cfg.db_save_tracks ≤ pending))
      || decide (cfg.db_save_interval ≤ counter) then
    (⟨0, 0, false⟩, true)
  else
    (⟨pending, counter, dirty⟩, false)

/-! ## Rendition priority (src/audio.rs `get_format_priority`, lines 432-464)

A direct translation of the substring checks, in source order.  The
last-resort re-encode path of `process_track_audio` (line 254) tags its
result with the literal string modelled by `transcodedFallbackTag`. -/

/-- Does the character list start with the given pattern? -/
def startsWithChars : List Char → List Char → Bool
  | _, [] => true
  | [], _ :: _ => false
  | a :: as, b :: bs => a == b && startsWithChars as bs

/-- Substring occurrence on character lists. -/
def hasSubChars : List Char → List Char → Bool
  | [], pat => pat.isEmpty
  | a :: as, pat => startsWithChars (a :: as) pat || hasSubChars as pat

/-- Rust `str::contains` on our string model. -/
def strContains (s pat : String) : Bool :=
  hasSubChars s.toList pat.toList

/-- src/audio.rs `get_format_priority`: lower value sorts first. -/
def get_format_priority (format_info : String) : Int :=
  if strContains format_info "hq" then
    if strContains format_info "flac" then 1
    else if strContains format_info "opus" then 2
    else if strContains format_info "mp3" then 3
    else if strContains format_info "aac" || strContains format_info "mp4" then 4
    else 5
  else
    if strContains format_info "progressive" && strContains format_info "mp3" then 10
    else if strContains format_info "opus" then 11
    else if strContains format_info "mp3" then 12
    else if strContains format_info "aac" || strContains format_info "mp4" then 13
    else if strContains format_info "hls" then 15
    else if strContains format_info "transcoded" then 50
    else 20

/-- The tag attached by the last-resort re-encode of
src/audio.rs `process_track_audio` (line 254). -/
def transcodedFallbackTag : String := "transcoded/mp3"

/-! ## Attachment filtering (src/discord.rs `send_with_audio_files`,
lines 282-331) -/

/-- A candidate attachment: path, file name, and the size reported by
`fs::metadata` (0 on a metadata error). -/
structure FileEntry where
  path : String
  name : String
  size : Nat
deriving DecidableEq, Repr

/-- `MAX_DISCORD_UPLOAD_SIZE`. -/
def MAX_DISCORD_UPLOAD_SIZE : Nat := 8 * 1024 * 1024

/-- `MAX_ATTACHMENTS`. -/
def MAX_ATTACHMENTS : Nat := 10

/-- Size comparison used by `file_sizes.sort_by(|a, b| a.2.cmp(&b.2))`. -/
def bySize (a b : FileEntry) : Prop := a.size ≤ b.size

instance : DecidableRel bySize := fun a b => Nat.decLe a.size b.size

instance : IsTotal FileEntry bySize := ⟨fun a b => Nat.le_total a.size b.size⟩

instance : IsTrans FileEntry bySize := ⟨fun _ _ _ => Nat.le_trans⟩

/-- The stable ascending size sort of `send_with_audio_files`. -/
def sortBySize (files : List FileEntry) : List FileEntry :=
  List.insertionSort bySize files

/-- The admission loop: break once `MAX_ATTACHMENTS` files are admitted,
skip (continue past) a file whose size would push the running total over
`MAX_DISCORD_UPLOAD_SIZE`, admit otherwise. -/
def admitFiles : List FileEntry → Nat → Nat → List FileEntry
  | [], _, _ => []
  | f :: rest, fileCount, totalSize =>
    if MAX_ATTACHMENTS ≤ fileCount then []
    else if MAX_DISCORD_UPLOAD_SIZE < totalSize + f.size then
      admitFiles rest fileCount totalSize
    else
      f :: admitFiles rest (fileCount + 1) (totalSize + f.size)

/-- The filtered file list sent as multipart parts by
`send_with_audio_files`. -/
def filteredFiles (files : List FileEntry) : List FileEntry :=
  admitFiles (sortBySize files) 0 0

/-- Cumulative size of a file list. -/
def sizeSum (files : List FileEntry) : Nat :=
  (files.map FileEntry.size).sum

/-! ## Embed description trimming (src/discord.rs `build_track_embed`,
lines 59-69)

Rust `String::len` is the UTF-8 byte length and `String::truncate` cuts at
a byte index, panicking when the index falls inside a multi-byte character.
We model the description as its character sequence and account bytes
explicitly; a `none` result is the panic. -/

/-- UTF-8 encoded size of one character (Rust `char::len_utf8`). -/
def charUtf8Size (c : Char) : Nat :=
  if c.toNat < 0x80 then 1
  else if c.toNat < 0x800 then 2
  else if c.toNat < 0x10000 then 3
  else 4

/-- UTF-8 byte length of a character sequence (Rust `String::len`). -/
def utf8Len (s : List Char) : Nat :=
  (s.map charUtf8Size).sum

/-- Rust `String::truncate`: keep the first `budget` bytes; `none` when the
cut would fall strictly inside a character. -/
def truncateBytes : List Char → Nat → Option (List Char)
  | [], _ => some []
  | c :: rest, budget =>
    if budget = 0 then some []
    else if charUtf8Size c ≤ budget then
      (truncateBytes rest (budget - charUtf8Size c)).map (fun l => c :: l)
    else none

/-- `MAX_DESCRIPTION_LENGTH`. -/
def MAX_DESCRIPTION_LENGTH : Nat := 2000

/-- The description put into the embed by `build_track_embed`: trimmed to
2000 bytes with `"..."` appended when the byte length exceeds 2000. -/
def build_description (d : List Char) : Option (List Char) :=
  if MAX_DESCRIPTION_LENGTH < utf8Len d then
    (truncateBytes d MAX_DESCRIPTION_LENGTH).map (fun t => t ++ ['.', '.', '.'])
  else
    some d

/-! ## Upstream retry loop (src/soundcloud.rs)

`get_user_tracks`, `get_user_details`, `get_track_details`, `resolve_url`,
`get_user_likes` and `get_user_followings` all run the same
`for retry in 0..3` loop: sleep `2 * retry` seconds when `retry > 0`, issue
one HTTP attempt, return on success, refresh the credential and continue on
401/403 (propagating a refresh failure immediately), continue on any other
HTTP error, network error or JSON parse failure, and fail exhausted after
the third attempt. -/

/-- Outcome of one attempt, with the result of the credential refresh folded
into the auth case. -/
inductive AttemptResult where
  | ok
  | authRefreshOk
  | authRefreshFail
  | httpErr
  | netErr
  | parseErr
deriving DecidableEq, Repr

/-- Does this outcome make the loop continue to the next iteration? -/
def AttemptResult.continues : AttemptResult → Bool
  | AttemptResult.authRefreshOk => true
  | AttemptResult.httpErr => true
  | AttemptResult.netErr => true
  | AttemptResult.parseErr => true
  | _ => false

/-- Observable trace of one run of the retry loop: number of HTTP attempts
issued, the sleeps performed (in seconds, in order), and whether the
operation succeeded. -/
structure RetryTrace where
  attempts : Nat
  sleeps : List Nat
  success : Bool
deriving DecidableEq, Repr

/-- One loop iteration at index `i`: sleep `2 * i` when `i > 0`, issue the
attempt, then return, abort, or fall through to the rest of the loop. -/
def retryIter (r : AttemptResult) (i : Nat) (rest : RetryTrace) : RetryTrace :=
  let slp : List Nat := if i = 0 then [] else [2 * i]
  match r with
  | AttemptResult.ok => ⟨1, slp, true⟩
  | AttemptResult.authRefreshFail => ⟨1, slp, false⟩
  | _ => ⟨rest.attempts + 1, slp ++ rest.sleeps, rest.success⟩

/-- The whole `for retry in 0..3` loop, given the outcome each iteration
would observe. -/
def retryLoop (r0 r1 r2 : AttemptResult) : RetryTrace :=
  retryIter r0 0 (retryIter r1 1 (retryIter r2 2 ⟨0, [], false⟩))

/-- Reclassify a successful auth-refresh attempt as a plain HTTP failure;
used to state that refreshes change nothing about the attempt budget. -/
def stripAuth : AttemptResult → AttemptResult
  | AttemptResult.authRefreshOk => AttemptResult.httpErr
  | r => r

/-! ## Store persistence (src/db.rs `save`, lines 68-122)

`save` copies `<path>` to `<path>.bak` when `<path>` exists (a copy failure
is only logged), truncates and rewrites `<path>` via `File::create` and
`serde_json::to_writer_pretty`, restores from the back-up on a
serialisation failure, and finally removes the back-up (a removal failure is
only logged and the save still reports success).  We model the two files and
inject one success/failure flag per fallible step. -/

/-- Contents of a file in the model: a fully written document or a file
corrupted by an interrupted write. -/
inductive FileContent where
  | full (v : Nat)
  | corrupt
deriving DecidableEq, Repr

/-- The two on-disk files `save` touches (`none` means the file does not
exist). -/
structure FsState where
  path : Option FileContent
  bak : Option FileContent
deriving DecidableEq, Repr

/-- Which fallible steps of `save` fail in a given run. -/
structure SaveFaults where
  copyBak : Bool
  create : Bool
  write : Bool
  restore : Bool
  removeBak : Bool
deriving DecidableEq, Repr

/-- src/db.rs `save`: returns the resulting file states and whether the
function returned `Ok`. -/
def dbSave (st : FsState) (newVal : Nat) (f : SaveFaults) : FsState × Bool :=
  let bak1 := if st.path.isSome then (if f.copyBak then st.bak else st.path) else st.bak
  if f.create then
    ({ path := st.path, bak := bak1 }, false)
  else if f.write then
    let pathAfter :=
      if bak1.isSome && !f.restore then bak1 else some FileContent.corrupt
    ({ path := pathAfter, bak := bak1 }, false)
  else
    let bak2 := if bak1.isSome then (if f.removeBak then bak1 else none) else bak1
    ({ path := some (FileContent.full newVal), bak := bak2 }, true)

/-! ## Basic lemmas about the association-list map -/

theorem mapContains_eq_isSome (m : TrackMap) (k : String) :
    mapContains m k = (mapLookup m k).isSome := by
  induction m with
  | nil => rfl
  | cons p rest ih =>
    cases h : (p.1 == k) with
    | true =>
      simp [mapContains, mapLookup, List.any_cons, h, List.find?_cons_of_pos]
    | false =>
      simp only [mapContains, List.any_cons, h, Bool.false_or]
      rw [mapLookup, List.find?_cons_of_neg _ (by simp [h])]
      exact ih

theorem mapLookup_replace_self (m : TrackMap) (k : String) (v : Option DiscordMessage)
    (h : mapContains m k = true) :
    mapLookup (m.map (fun p => if p.1 == k then (k, v) else p)) k = some v := by
  induction m with
  | nil => simp [mapContains] at h
  | cons p rest ih =>
    cases hp : (p.1 == k) with
    | true =>
      simp only [List.map_cons, hp, if_true]
      rw [mapLookup, List.find?_cons_of_pos _ (by simp)]
      rfl
    | false =>
      have h2 : mapContains rest k = true := by
        simpa [mapContains, List.any_cons, hp] using h
      simp only [List.map_cons, hp, if_false]
      rw [mapLookup, List.find?_cons_of_neg _ (by simp [hp])]
      exact ih h2

theorem mapLookup_append_self (m : TrackMap) (k : String) (v : Option DiscordMessage)
    (h : mapContains m k = false) :
    mapLookup (m ++ [(k, v)]) k = some v := by
  induction m with
  | nil =>
    rw [List.nil_append, mapLookup, List.find?_cons_of_pos _ (by simp)]
    rfl
  | cons p rest ih =>
    simp only [mapContains, List.any_cons, Bool.or_eq_false_iff] at h
    rw [List.cons_append, mapLookup, List.find?_cons_of_neg _ (by simp [h.1])]
    exact ih h.2

theorem mapLookup_mapInsert_self (m : TrackMap) (k : String) (v : Option DiscordMessage) :
    mapLookup (mapInsert m k v) k = some v := by
  unfold mapInsert
  cases hc : mapContains m k with
  | true => simpa [hc] using mapLookup_replace_self m k v hc
  | false => simpa [hc] using mapLookup_append_self m k v hc

theorem mapLookup_replace_ne (m : TrackMap) (k k' : String) (v : Option DiscordMessage)
    (h : k' ≠ k) :
    mapLookup (m.map (fun p => if p.1 == k then (k, v) else p)) k' = mapLookup m k' := by
  induction m with
  | nil => rfl
  | cons p rest ih =>
    cases hp : (p.1 == k) with
    | true =>
      have hpk : p.1 = k := by simpa using hp
      simp only [List.map_cons, hp, if_true]
      rw [mapLookup, List.find?_cons_of_neg _ (by simp [Ne.symm h]),
        mapLookup, List.find?_cons_of_neg _ (by simp [hpk, Ne.symm h])]
      exact ih
    | false =>
      simp only [List.map_cons, hp, if_false]
      cases hq : (p.1 == k') with
      | true =>
        rw [mapLookup, List.find?_cons_of_pos _ (by simp [hq]),
          mapLookup, List.find?_cons_of_pos _ (by simp [hq])]
        simp [hp]
      | false =>
        rw [mapLookup, List.find?_cons_of_neg _ (by simp [hq]),
          mapLookup, List.find?_cons_of_neg _ (by simp [hq])]
        exact ih

theorem mapLookup_append_ne (m : TrackMap) (k k' : String) (v : Option DiscordMessage)
    (h : k' ≠ k) :
    mapLookup (m ++ [(k, v)]) k' = mapLookup m k' := by
  induction m with
  | nil =>
    rw [List.nil_append, mapLookup, List.find?_cons_of_neg _ (by simp [Ne.symm h])]
    rfl
  | cons p rest ih =>
    cases hq : (p.1 == k') with
    | true =>
      rw [List.cons_append, mapLookup, List.find?_cons_of_pos _ (by simp [hq]),
        mapLookup, List.find?_cons_of_pos _ (by simp [hq])]
    | false =>
      rw [List.cons_append, mapLookup, List.find?_cons_of_neg _ (by simp [hq]),
        mapLookup, List.find?_cons_of_neg _ (by simp [hq])]
      exact ih

theorem mapLookup_mapInsert_ne (m : TrackMap) (k k' : String) (v : Option DiscordMessage)
    (h : k' ≠ k) : mapLookup (mapInsert m k v) k' = mapLookup m k' := by
  unfold mapInsert
  cases hc : mapContains m k with
  | true => simpa [hc] using mapLookup_replace_ne m k k' v h
  | false => simpa [hc] using mapLookup_append_ne m k k' v h

theorem mapLookup_insertAllNone_of_not_mem (ids : List String) (m : TrackMap) (id : String)
    (h : id ∉ ids) : mapLookup (insertAllNone m ids) id = mapLookup m id := by
  induction ids generalizing m with
  | nil => rfl
  | cons i rest ih =>
    have hni : id ≠ i := fun he => h (he ▸ List.mem_cons_self i rest)
    have hnr : id ∉ rest := fun hr => h (List.mem_cons_of_mem i hr)
    calc mapLookup (insertAllNone (mapInsert m i none) rest) id
        = mapLookup (mapInsert m i none) id := ih (mapInsert m i none) hnr
      _ = mapLookup m id := mapLookup_mapInsert_ne m i id none hni

theorem mapLookup_insertAllNone_of_mem (ids : List String) (m : TrackMap) (id : String)
    (h : id ∈ ids) : mapLookup (insertAllNone m ids) id = some none := by
  induction ids generalizing m with
  | nil => cases h
  | cons i rest ih =>
    by_cases hr : id ∈ rest
    · exact ih (mapInsert m i none) hr
    · have hi : id = i := by
        rcases List.mem_cons.mp h with he | he
        · exact he
        · exact absurd he hr
      subst hi
      calc mapLookup (insertAllNone (mapInsert m id none) rest) id
          = mapLookup (mapInsert m id none) id :=
            mapLookup_insertAllNone_of_not_mem rest (mapInsert m id none) id hr
        _ = some none := mapLookup_mapInsert_self m id none

theorem mem_mapKeys_mapInsert (m : TrackMap) (k a : String) (v : Option DiscordMessage)
    (h : a ∈ mapKeys m) : a ∈ mapKeys (mapInsert m k v) := by
  unfold mapInsert
  cases hc : mapContains m k with
  | true =>
    simp only [hc, if_true]
    unfold mapKeys at h ⊢
    obtain ⟨q, hq, hqa⟩ := List.mem_map.mp h
    apply List.mem_map.mpr
    refine ⟨if q.1 == k then (k, v) else q, List.mem_map_of_mem _ hq, ?_⟩
    cases hqk : (q.1 == k) with
    | true =>
      have hq1 : q.1 = k := by simpa using hqk
      simp [hqk, ← hq1, hqa]
    | false => simp [hqk, hqa]
  | false =>
    simp only [hc, Bool.false_eq_true, if_false]
    unfold mapKeys at h ⊢
    rw [List.map_append]
    exact List.mem_append_left _ h

theorem mem_mapKeys_insertAllNone (ids : List String) (m : TrackMap) (a : String)
    (h : a ∈ mapKeys m) : a ∈ mapKeys (insertAllNone m ids) := by
  induction ids generalizing m with
  | nil => exact h
  | cons i rest ih =>
    exact ih (mapInsert m i none) (mem_mapKeys_mapInsert m i a none h)

theorem mapContains_insertAllNone_of_mem (ids : List String) (m : TrackMap) (id : String)
    (h : id ∈ ids) : mapContains (insertAllNone m ids) id = true := by
  rw [mapContains_eq_isSome, mapLookup_insertAllNone_of_mem ids m id h]
  rfl

/-- The webhook-result fold in `pollUser` never changes the store: both
match arms hand the database back unchanged. -/
theorem foldl_webhook_const (ok : String → Bool) (d : TrackDatabase) (l : List String) :
    List.foldl
      (fun d id =>
        match send_track_webhook (ok id) with
        | Except.ok _ => d
        | Except.error _ => d)
      d l = d := by
  induction l generalizing d with
  | nil => rfl
  | cons i rest ih =>
    rw [List.foldl_cons]
    cases hsw : send_track_webhook (ok i) <;> simp only [hsw] <;> exact ih d

/-- The store produced by `pollUser` is exactly the one produced by the
up-front `add_tracks_and_save`; the webhook outcomes have no effect on it. -/
theorem pollUser_fst (db : TrackDatabase) (ids : List String) (ok : String → Bool) :
    (pollUser db ids ok).1 = (db.add_tracks ids).1 := by
  unfold pollUser
  exact foldl_webhook_const ok (db.add_tracks ids).1 (db.add_tracks ids).2

theorem mapContains_eq_true_iff_mem (m : TrackMap) (k : String) :
    mapContains m k = true ↔ k ∈ mapKeys m := by
  unfold mapContains mapKeys
  rw [List.any_eq_true]
  constructor
  · rintro ⟨p, hp, hpk⟩
    exact List.mem_map.mpr ⟨p, hp, by simpa using hpk⟩
  · intro hk
    obtain ⟨p, hp, hpk⟩ := List.mem_map.mp hk
    exact ⟨p, hp, by simp [hpk]⟩

/-- Every single store operation can only grow the key set. -/
theorem mem_get_all_tracks_applyOp (db : TrackDatabase) (op : DbOp) (a : String)
    (h : a ∈ db.get_all_tracks) : a ∈ (applyOp db op).get_all_tracks := by
  cases op with
  | addTracks ids =>
    exact mem_mapKeys_insertAllNone _ db.tracks a h
  | link id d c u =>
    exact mem_mapKeys_mapInsert db.tracks id a _ h
  | initializeWith ids =>
    exact mem_mapKeys_insertAllNone ids db.tracks a h
  | save => exact h
  | shutdown => exact h
  | pollAccount ids ok =>
    show a ∈ (pollUser db ids ok).1.get_all_tracks
    rw [pollUser_fst]
    exact mem_mapKeys_insertAllNone _ db.tracks a h

/-- C8: track-store membership is monotonic within a run: `add_many`
(`add_tracks`), `link` (`add_track_with_discord_info`), the initialisation
batch insert, `save`, `shutdown` and the per-account routine only add or
overwrite entries, so an id listed by `get_all_tracks` is still listed after
any sequence of store operations. -/
theorem track_store_monotonic (db : TrackDatabase) (ops : List DbOp) (id : String)
    (h : id ∈ db.get_all_tracks) : id ∈ (runOps db ops).get_all_tracks := by
  induction ops generalizing db with
  | nil => exact h
  | cons op rest ih =>
    exact ih (applyOp db op) (mem_get_all_tracks_applyOp db op id h)

/-- Witness for C8 at a concrete store and operation sequence. -/
theorem track_store_monotonic_witness :
    "7" ∈ (runOps ⟨[("7", none)]⟩
      [DbOp.save, DbOp.addTracks ["9"], DbOp.link "9" "m1" none none,
        DbOp.pollAccount ["7", "8"] (fun _ => false), DbOp.shutdown]).get_all_tracks :=
  track_store_monotonic ⟨[("7", none)]⟩
    [DbOp.save, DbOp.addTracks ["9"], DbOp.link "9" "m1" none none,
      DbOp.pollAccount ["7", "8"] (fun _ => false), DbOp.shutdown]
    "7" (by decide)

/-- C10: `get_discord_info` yields `none` both for an id that was never
recorded (`has_track` false) and for an id recorded without an announce-link
(value `None`, as `add_tracks` records every new id); the two states cannot
be told apart through this operation. -/
theorem get_discord_info_none (db : TrackDatabase) (id : String) :
    (db.has_track id = false → db.get_discord_info id = none)
    ∧ (mapLookup db.tracks id = some none → db.get_discord_info id = none)
    ∧ (∀ ids, id ∈ (db.add_tracks ids).2 →
        (db.add_tracks ids).1.get_discord_info id = none) := by
  refine ⟨?_, ?_, ?_⟩
  · intro h
    have hl : (mapLookup db.tracks id).isSome = false := by
      rw [← mapContains_eq_isSome]
      exact h
    have hn : mapLookup db.tracks id = none := by
      cases he : mapLookup db.tracks id
      · rfl
      · rw [he] at hl; cases hl
    unfold TrackDatabase.get_discord_info
    rw [hn]
  · intro h
    unfold TrackDatabase.get_discord_info
    rw [h]
  · intro ids hmem
    have hl : mapLookup (db.add_tracks ids).1.tracks id = some none :=
      mapLookup_insertAllNone_of_mem _ db.tracks id hmem
    unfold TrackDatabase.get_discord_info
    rw [hl]

/-- Witness for C10 at a concrete store: "6" was just added by `add_tracks`
(seen but not linked) and its lookup is indistinguishable from "missing". -/
theorem get_discord_info_none_witness :
    ((TrackDatabase.add_tracks ⟨[("5", none)]⟩ ["6"]).1.get_discord_info "6" = none) :=
  (get_discord_info_none ⟨[("5", none)]⟩ "6").2.2 ["6"] (by decide)

/-- C1 counterexample: with an empty store, one fetched track "100" and a
webhook that rejects, `poll_user` leaves "100" **in** the store (the claim
says a rejected track is not in the store and is retried); and with a
webhook that succeeds, no announce-link is recorded (the claim says the
message id is handed back and recorded). -/
theorem poll_user_linkage_counterexample :
    ((pollUser ⟨[]⟩ ["100"] (fun _ => false)).1.has_track "100" = true)
    ∧ ((pollUser ⟨[]⟩ ["100"] (fun _ => true)).1.get_discord_info "100" = none) := by
  decide

/-- C1 amended: `poll_user` records every fetched id in the store (value
`None`) via `add_tracks_and_save` **before** any webhook call; the webhook
result carries no message id and the resulting store is independent of the
webhook outcomes, so no track is linked and a track whose webhook failed
stays in the store and is not retried on the next tick. -/
theorem poll_user_linkage (db : TrackDatabase) (ids : List String)
    (ok : String → Bool) (id : String) :
    ((pollUser db ids ok).1 = (pollUser db ids (fun _ => false)).1)
    ∧ (id ∈ ids → (pollUser db ids ok).1.has_track id = true)
    ∧ (db.has_track id = false →
        (pollUser db ids ok).1.get_discord_info id = none) := by
  refine ⟨?_, ?_, ?_⟩
  · rw [pollUser_fst, pollUser_fst]
  · intro hmem
    rw [show (pollUser db ids ok).1 = (db.add_tracks ids).1 from pollUser_fst db ids ok]
    show mapContains (db.add_tracks ids).1.tracks id = true
    cases hc : db.has_track id with
    | true =>
      have hk0 : id ∈ mapKeys db.tracks :=
        (mapContains_eq_true_iff_mem db.tracks id).mp hc
      have hk : id ∈ mapKeys (db.add_tracks ids).1.tracks :=
        mem_mapKeys_insertAllNone (db.add_tracks ids).2 db.tracks id hk0
      exact (mapContains_eq_true_iff_mem _ id).mpr hk
    | false =>
      have hmem2 : id ∈ (db.add_tracks ids).2 := by
        unfold TrackDatabase.add_tracks
        simp only [List.mem_filter]
        exact ⟨hmem, by simp [hc]⟩
      have hl : mapLookup (db.add_tracks ids).1.tracks id = some none :=
        mapLookup_insertAllNone_of_mem _ db.tracks id hmem2
      rw [mapContains_eq_isSome, hl]
      rfl
  · intro hc
    rw [show (pollUser db ids ok).1 = (db.add_tracks ids).1 from pollUser_fst db ids ok]
    by_cases hmem2 : id ∈ (db.add_tracks ids).2
    · have hl : mapLookup (db.add_tracks ids).1.tracks id = some none :=
        mapLookup_insertAllNone_of_mem _ db.tracks id hmem2
      unfold TrackDatabase.get_discord_info
      rw [hl]
    · have hl : mapLookup (db.add_tracks ids).1.tracks id = mapLookup db.tracks id :=
        mapLookup_insertAllNone_of_not_mem _ db.tracks id hmem2
      have hn : mapLookup db.tracks id = none := by
        have hs : (mapLookup db.tracks id).isSome = false := by
          rw [← mapContains_eq_isSome]; exact hc
        cases he : mapLookup db.tracks id
        · rfl
        · rw [he] at hs; cases hs
      unfold TrackDatabase.get_discord_info
      rw [hl, hn]

/-- Witness for C1's amended statement at a concrete input. -/
theorem poll_user_linkage_witness :
    (pollUser ⟨[]⟩ ["1"] (fun _ => true)).1.get_discord_info "1" = none :=
  (poll_user_linkage ⟨[]⟩ ["1"] (fun _ => true) "1").2.2 (by decide)

/-- C2: with the configured cap 500, a user record carrying `track_count`
10 and the default buffer 5, `get_user_tracks` issues its request with
`limit = 500` (its `effective_limit = limit` line ignores the fetched track
count, against its own comment), violating the claimed bound
min(500, 10 + 5); and with `track_count` absent it issues no request at all
and returns the empty list instead of using the configured cap. -/
theorem get_user_tracks_cap_eval :
    getUserTracksRequestLimit 500 (UserDetails.available (some 10)) = some 500
    ∧ ¬(500 ≤ min 500 (10 + 5))
    ∧ getUserTracksRequestLimit 500 UserDetails.unavailable = none
    ∧ getUserTracksRequestLimit 500 (UserDetails.available none) = none := by
  decide

/-- The tick saves exactly when the boolean save condition of
src/main.rs lines 706-709 holds. -/
theorem schedTick_save_iff (cfg : SchedConfig) (st : SchedState) (counts : List Nat) :
    (schedTick cfg st counts).2 =
      ((st.db_needs_saving || counts.any (fun c => 0 < c))
          && decide (cfg.db_save_tracks ≤ counts.sum)
        || decide (cfg.db_save_interval ≤ st.db_save_counter + 1)) := by
  unfold schedTick
  dsimp only
  split
  next h => exact h.symm
  next h =>
    simp only [Bool.not_eq_true] at h
    exact h.symm

/-- C3 counterexample: thresholds save-every-tracks 5, save-every-ticks 100;
two consecutive ticks each finding 3 new tracks.  Under the claim's
cross-tick accumulation the pending counter reaches 6 ≥ 5 and the second
tick saves; the code's per-tick counter is re-initialised and holds only 3,
so the second tick does not save. -/
theorem watcher_save_counterexample :
    ((schedTick ⟨5, 100⟩ ((schedTick ⟨5, 100⟩ ⟨0, false⟩ [3]).1) [3]).2 = false)
    ∧ ((schedTickAsClaimed ⟨5, 100⟩
        ((schedTickAsClaimed ⟨5, 100⟩ ⟨0, 0, false⟩ [3]).1) [3]).2 = true) := by
  decide

/-- C3 amended: `tracks_since_last_save` is a tick-local accumulator (it is
declared inside the loop body and restarts at 0 every tick); the dirty flag
and the tick counter persist.  A tick saves exactly when (the dirty flag is
set by this or an earlier tick and this tick's new-track sum reaches
save-every-tracks) or the tick counter reaches save-every-ticks, and on a
save the persistent counter and dirty flag are reset. -/
theorem watcher_save_amended (cfg : SchedConfig) (st : SchedState) (counts : List Nat) :
    ((schedTick cfg st counts).2 = true ↔
      ((st.db_needs_saving = true ∨ ∃ c ∈ counts, 0 < c)
          ∧ cfg.db_save_tracks ≤ counts.sum)
        ∨ cfg.db_save_interval ≤ st.db_save_counter + 1)
    ∧ ((schedTick cfg st counts).2 = true →
        (schedTick cfg st counts).1 = ⟨0, false⟩) := by
  constructor
  · rw [schedTick_save_iff]
    simp [List.any_eq_true]
  · intro h2
    unfold schedTick at h2 ⊢
    dsimp only at h2 ⊢
    split at h2
    next hcond =>
      simp only [hcond, if_true]
    next hcond => cases h2

/-- Witness for C3's amended statement at a concrete input. -/
theorem watcher_save_amended_witness :
    (schedTick ⟨5, 100⟩ ⟨0, false⟩ [5]).1 = ⟨0, false⟩ :=
  (watcher_save_amended ⟨5, 100⟩ ⟨0, false⟩ [5]).2 (by decide)

/-- C4: the last-resort re-encode tag `transcoded/mp3` is assigned priority
12 by `get_format_priority`, not the 50 the table (and the code's own
comment on the `transcoded` branch) prescribe: the non-hq `mp3` substring
check matches first, making the 50 branch unreachable for this tag. -/
theorem format_priority_transcoded_eval :
    get_format_priority transcodedFallbackTag = 12
    ∧ get_format_priority transcodedFallbackTag ≠ 50 := by
  decide

/-- The admission loop never admits more than `MAX_ATTACHMENTS - fileCount`
further files. -/
theorem admitFiles_length_le (l : List FileEntry) :
    ∀ fileCount totalSize,
      (admitFiles l fileCount totalSize).length ≤ MAX_ATTACHMENTS - fileCount := by
  induction l with
  | nil => intro c t; simp [admitFiles]
  | cons f rest ih =>
    intro c t
    unfold admitFiles
    split
    next hc => simp
    next hc =>
      split
      next hsz => exact ih c t
      next hsz =>
        have h1 := ih (c + 1) (t + f.size)
        have h2 : c < MAX_ATTACHMENTS := Nat.lt_of_not_le hc
        simp only [List.length_cons]
        omega

/-- The admission loop keeps the running total within the size cap. -/
theorem admitFiles_sum_le (l : List FileEntry) :
    ∀ fileCount totalSize, totalSize ≤ MAX_DISCORD_UPLOAD_SIZE →
      totalSize + sizeSum (admitFiles l fileCount totalSize)
        ≤ MAX_DISCORD_UPLOAD_SIZE := by
  induction l with
  | nil => intro c t ht; simpa [admitFiles, sizeSum] using ht
  | cons f rest ih =>
    intro c t ht
    unfold admitFiles
    split
    next hc => simpa [sizeSum] using ht
    next hc =>
      split
      next hsz => exact ih c t ht
      next hsz =>
        have hfit : t + f.size ≤ MAX_DISCORD_UPLOAD_SIZE := Nat.le_of_not_lt hsz
        have h1 := ih (c + 1) (t + f.size) hfit
        simp only [sizeSum, List.map_cons, List.sum_cons] at h1 ⊢
        omega

/-- The admitted files form a subsequence of the examined list: a file
skipped for size does not abort the files after it. -/
theorem admitFiles_sublist (l : List FileEntry) :
    ∀ fileCount totalSize, List.Sublist (admitFiles l fileCount totalSize) l := by
  induction l with
  | nil => intro c t; simp [admitFiles]
  | cons f rest ih =>
    intro c t
    unfold admitFiles
    split
    next hc => exact List.nil_sublist _
    next hc =>
      split
      next hsz => exact List.Sublist.cons f (ih c t)
      next hsz => exact List.Sublist.cons₂ f (ih (c + 1) (t + f.size))

/-- C5: the webhook poster ranks the candidate files by size ascending and
greedily admits them - the admitted list is a subsequence of the sorted
list, so an individually skipped oversize file does not abort later files -
and the multipart body never carries more than 10 file parts nor more than
8 MiB of cumulative file bytes. -/
theorem attachment_caps (files : List FileEntry) :
    (filteredFiles files).length ≤ MAX_ATTACHMENTS
    ∧ sizeSum (filteredFiles files) ≤ MAX_DISCORD_UPLOAD_SIZE
    ∧ List.Sublist (filteredFiles files) (sortBySize files)
    ∧ List.Sorted bySize (sortBySize files) := by
  refine ⟨?_, ?_, ?_, ?_⟩
  · simpa using admitFiles_length_le (sortBySize files) 0 0
  · simpa using admitFiles_sum_le (sortBySize files) 0 0 (Nat.zero_le _)
  · exact admitFiles_sublist (sortBySize files) 0 0
  · exact List.sorted_insertionSort bySize files

/-- Every character encodes to at least one byte. -/
theorem one_le_charUtf8Size (c : Char) : 1 ≤ charUtf8Size c := by
  unfold charUtf8Size
  split
  · exact Nat.le_refl 1
  · split
    · omega
    · split <;> omega

/-- A character list is no longer than its UTF-8 byte length. -/
theorem length_le_utf8Len (l : List Char) : l.length ≤ utf8Len l := by
  induction l with
  | nil => simp [utf8Len]
  | cons c rest ih =>
    have := one_le_charUtf8Size c
    simp only [List.length_cons, utf8Len, List.map_cons, List.sum_cons] at ih ⊢
    omega

/-- A successful byte truncation stays within the byte budget. -/
theorem truncateBytes_utf8Len_le (d : List Char) :
    ∀ budget r, truncateBytes d budget = some r → utf8Len r ≤ budget := by
  induction d with
  | nil =>
    intro budget r h
    unfold truncateBytes at h
    cases h
    simp [utf8Len]
  | cons c rest ih =>
    intro budget r h
    unfold truncateBytes at h
    split at h
    next h0 =>
      cases h
      simp [utf8Len, h0]
    next h0 =>
      split at h
      next hfit =>
        obtain ⟨l, hl, rfl⟩ := Option.map_eq_some'.mp h
        have h1 := ih (budget - charUtf8Size c) l hl
        simp only [utf8Len, List.map_cons, List.sum_cons] at h1 ⊢
        omega
      next hfit => cases h

/-- UTF-8 length of a repeated character. -/
theorem utf8Len_replicate (n : Nat) (c : Char) :
    utf8Len (List.replicate n c) = n * charUtf8Size c := by
  induction n with
  | zero => simp [utf8Len]
  | succ k ih =>
    simp only [List.replicate_succ, utf8Len, List.map_cons, List.sum_cons] at ih ⊢
    rw [Nat.succ_mul]
    omega

/-- C6 counterexample: a description of 1001 copies of the two-byte
character 'é' has 1001 ≤ 2000 characters, yet `build_track_embed` trims it
(the code compares and truncates by UTF-8 **bytes**, and this description is
2002 bytes long), against the claim that descriptions of 2000 characters or
fewer are carried unchanged. -/
theorem description_trim_counterexample :
    (List.replicate 1001 'é').length ≤ 2000
    ∧ build_description (List.replicate 1001 'é')
        ≠ some (List.replicate 1001 'é') := by
  constructor
  · rw [List.length_replicate]
    omega
  · intro h
    unfold build_description at h
    have hlen : MAX_DESCRIPTION_LENGTH < utf8Len (List.replicate 1001 'é') := by
      have hc : charUtf8Size 'é' = 2 := by decide
      rw [utf8Len_replicate, hc]
      unfold MAX_DESCRIPTION_LENGTH
      omega
    rw [if_pos hlen] at h
    obtain ⟨t, ht, heq⟩ := Option.map_eq_some'.mp h
    have hdot : '.' ∈ t ++ ['.', '.', '.'] := by simp
    rw [heq] at hdot
    exact absurd (List.eq_of_mem_replicate hdot) (by decide)

/-- C6 amended: the trimming threshold is the UTF-8 byte length, not the
character count: a description of at most 2000 bytes is carried unchanged,
and any description the embed carries (the truncation panics when byte 2000
falls inside a multi-byte character) is at most 2003 bytes and hence at most
2003 characters.  For pure ASCII descriptions bytes and characters coincide
and the original claim holds verbatim. -/
theorem description_trim (d : List Char) :
    (utf8Len d ≤ 2000 → build_description d = some d)
    ∧ (∀ r, build_description d = some r → r.length ≤ 2003 ∧ utf8Len r ≤ 2003) := by
  constructor
  · intro h
    unfold build_description
    rw [if_neg (by unfold MAX_DESCRIPTION_LENGTH; omega)]
  · intro r h
    unfold build_description at h
    split at h
    next hlen =>
      obtain ⟨t, ht, rfl⟩ := Option.map_eq_some'.mp h
      have h1 : utf8Len t ≤ MAX_DESCRIPTION_LENGTH :=
        truncateBytes_utf8Len_le d MAX_DESCRIPTION_LENGTH t ht
      have h2 : t.length ≤ utf8Len t := length_le_utf8Len t
      have h3 : (List.map charUtf8Size ['.', '.', '.']).sum = 3 := by decide
      unfold MAX_DESCRIPTION_LENGTH at h1
      constructor
      · simp only [List.length_append, List.length_cons, List.length_nil]
        omega
      · simp only [utf8Len, List.map_append, List.sum_append] at h1 h3 ⊢
        omega
    next hlen =>
      cases h
      have h2 : d.length ≤ utf8Len d := length_le_utf8Len d
      unfold MAX_DESCRIPTION_LENGTH at hlen
      omega

/-- Witness for C6's amended statement on a short ASCII description. -/
theorem description_trim_witness :
    build_description ['h', 'i'] = some ['h', 'i'] :=
  (description_trim ['h', 'i']).1 (by decide)

/-- C7: the retry loop of every upstream operation issues at most 3 HTTP
attempts; the sleeps between attempts are exactly the prefix 0, 2, 4
seconds (no sleep before the first attempt); reclassifying every successful
credential refresh as a plain retryable failure leaves the attempt count
unchanged, so refreshes consume no extra attempts; and when all three
outcomes are retryable failures the operation fails exhausted after exactly
3 attempts. -/
theorem retry_bound (r0 r1 r2 : AttemptResult) :
    (retryLoop r0 r1 r2).attempts ≤ 3
    ∧ (retryLoop r0 r1 r2).sleeps
        = List.take ((retryLoop r0 r1 r2).attempts - 1) [2, 4]
    ∧ (retryLoop (stripAuth r0) (stripAuth r1) (stripAuth r2)).attempts
        = (retryLoop r0 r1 r2).attempts
    ∧ (r0.continues = true → r1.continues = true → r2.continues = true →
        (retryLoop r0 r1 r2).attempts = 3
          ∧ (retryLoop r0 r1 r2).success = false) := by
  cases r0 <;> cases r1 <;> cases r2 <;> decide

/-- Witness for C7 at three consecutive retryable failures. -/
theorem retry_bound_witness :
    (retryLoop AttemptResult.httpErr AttemptResult.netErr AttemptResult.parseErr).attempts = 3
    ∧ (retryLoop AttemptResult.httpErr AttemptResult.netErr AttemptResult.parseErr).success
        = false :=
  (retry_bound AttemptResult.httpErr AttemptResult.netErr AttemptResult.parseErr).2.2.2
    (by decide) (by decide) (by decide)

/-- C9 counterexample: on a run where only the final back-up removal fails
(the code logs a warning and still returns `Ok`), `save()` succeeds yet
`<path>.bak` still exists afterwards, against the claim that after every
successful save the back-up file does not exist. -/
theorem save_backup_counterexample :
    ((dbSave ⟨some (FileContent.full 1), none⟩ 2
        ⟨false, false, false, false, true⟩).2 = true)
    ∧ ((dbSave ⟨some (FileContent.full 1), none⟩ 2
        ⟨false, false, false, false, true⟩).1.bak ≠ none) := by
  decide

/-- C9 amended: `save` follows back-up-and-overwrite: with no filesystem
fault it returns `Ok`, installs the new contents and leaves no back-up; when
only the serialisation write fails mid-way it returns `Err`, the back-up
holds the previous contents and the restore has put them back in `<path>`;
and a successful save leaves no back-up whenever the back-up removal itself
succeeded - a failed removal is only logged and the save still reports
success, so the no-back-up guarantee holds only up to that removal. -/
theorem save_backup (prev newVal : Nat) (bak0 : Option FileContent) :
    (dbSave ⟨some (FileContent.full prev), bak0⟩ newVal
        ⟨false, false, false, false, false⟩
      = (⟨some (FileContent.full newVal), none⟩, true))
    ∧ (dbSave ⟨some (FileContent.full prev), bak0⟩ newVal
        ⟨false, false, true, false, false⟩
      = (⟨some (FileContent.full prev), some (FileContent.full prev)⟩, false))
    ∧ (∀ st f, f.removeBak = false → (dbSave st newVal f).2 = true →
        (dbSave st newVal f).1.bak = none) := by
  refine ⟨by simp [dbSave], by simp [dbSave], ?_⟩
  intro st f hrem hok
  obtain ⟨fcopy, fcreate, fwrite, frestore, fremove⟩ := f
  obtain ⟨pth, bk⟩ := st
  simp only at hrem
  subst hrem
  cases fcreate with
  | true => simp [dbSave] at hok
  | false =>
    cases fwrite with
    | true => simp [dbSave] at hok
    | false =>
      cases fcopy <;> rcases pth with _ | pv <;> rcases bk with _ | bv <;>
        simp [dbSave]

/-- Witness for C9's amended statement at concrete contents. -/
theorem save_backup_witness :
    (dbSave ⟨some (FileContent.full 1), none⟩ 2
        ⟨false, false, false, false, false⟩).1.bak = none :=
  (save_backup 1 2 none).2.2 ⟨some (FileContent.full 1), none⟩
    ⟨false, false, false, false, false⟩ rfl rfl

end Archiver
